import Mathlib

/-!
Verification development for the SparkyFitness Garmin background-sync engine.

Calendar dates (the `YYYY-MM-DD` strings handled by `moment` in the source)
are modelled as proleptic-Gregorian ordinal day numbers (`Nat`); adding one
day is `+ 1`, and the date comparisons `isAfter` / `isSameOrBefore` /
`isSameOrAfter` become `<` / `≤` / `≥` on ordinals.  `toOrdinal` below maps a
calendar date to its ordinal, so concrete dates named by the spec can be
written as calendar dates.

Two variants of the chunk planner exist in the sources (the job service
`garminSyncJobService.js` and the standalone worker script); they are
verbatim copies of the same algorithm, so both are embedded over the shared
loop `chunksGo`, in the namespaces `GarminSyncJobService` and
`GarminSyncWorker` respectively.
-/

/-- A date window, the transient value produced by the chunk planner
(`{ start, end }` in the source). -/
structure Chunk where
  start : Nat
  «end» : Nat
deriving DecidableEq, Repr

/-- `CHUNK_SIZE_DAYS = 7` in both sources. -/
def CHUNK_SIZE_DAYS : Nat := 7

/-- `maxIterations = 1000`, the safety cap of the planning loop. -/
def maxIterations : Nat := 1000

/--
The planning loop shared verbatim by both `calculateChunks` variants:
`while (currentStart.isSameOrBefore(end)) { ... }` with the iteration cap.
The source counts iterations upward and `break`s (without pushing) once the
count exceeds `maxIterations`; here the remaining allowance is the `fuel`
argument, so `fuel = 0` is exactly the `break`.
-/
def chunksGo : Nat → Nat → Nat → Nat → List Chunk
  | 0, _, _, _ => []
  | fuel + 1, currentStart, endDate, chunkSizeDays =>
    if currentStart ≤ endDate then
      let chunkEnd := min (currentStart + chunkSizeDays - 1) endDate
      ⟨currentStart, chunkEnd⟩ :: chunksGo fuel (chunkEnd + 1) endDate chunkSizeDays
    else []

namespace GarminSyncJobService

/-- `calculateChunks` of `SparkyFitnessServer/services/garminSyncJobService.js`. -/
def calculateChunks (startDate endDate chunkSizeDays : Nat) : List Chunk :=
  chunksGo maxIterations startDate endDate chunkSizeDays

end GarminSyncJobService

namespace GarminSyncWorker

/-- `calculateChunks` of the standalone sync-worker script (identical algorithm). -/
def calculateChunks (startDate endDate chunkSizeDays : Nat) : List Chunk :=
  chunksGo maxIterations startDate endDate chunkSizeDays

end GarminSyncWorker

/--
`isPlan e cs l` : the list `l` is a contiguous partition of the date span
`[cs, e]` into windows — each window starts where the running cursor is,
is well-formed and within bounds, and the cursor after the last window is
`e + 1`.
-/
def isPlan (e : Nat) : Nat → List Chunk → Prop
  | cs, [] => cs = e + 1
  | cs, c :: rest => c.start = cs ∧ c.start ≤ c.«end» ∧ c.«end» ≤ e ∧ isPlan e (c.«end» + 1) rest

theorem isPlan_ne_nil {e cs : Nat} {l : List Chunk} (h : isPlan e cs l) (hle : cs ≤ e) :
    l ≠ [] := by
  cases l with
  | nil => simp only [isPlan] at h; omega
  | cons c rest => simp

theorem isPlan_mem {e : Nat} : ∀ {cs : Nat} {l : List Chunk}, isPlan e cs l →
    ∀ c ∈ l, cs ≤ c.start ∧ c.start ≤ c.«end» ∧ c.«end» ≤ e := by
  intro cs l
  induction l generalizing cs with
  | nil => intro _ c hc; cases hc
  | cons a rest ih =>
    intro h c hc
    obtain ⟨ha1, ha2, ha3, hrest⟩ := h
    rcases List.mem_cons.mp hc with hc | hc
    · subst hc; omega
    · have := ih hrest c hc
      omega

theorem isPlan_pairwise {e : Nat} : ∀ {cs : Nat} {l : List Chunk}, isPlan e cs l →
    l.Pairwise (fun a b => a.«end» < b.start) := by
  intro cs l
  induction l generalizing cs with
  | nil => intro _; exact List.Pairwise.nil
  | cons a rest ih =>
    intro h
    obtain ⟨ha1, ha2, ha3, hrest⟩ := h
    refine List.pairwise_cons.mpr ⟨?_, ih hrest⟩
    intro b hb
    have := isPlan_mem hrest b hb
    omega

theorem isPlan_getLast {e : Nat} : ∀ {cs : Nat} {l : List Chunk}, isPlan e cs l →
    ∀ (hne : l ≠ []), (l.getLast hne).«end» = e := by
  intro cs l
  induction l generalizing cs with
  | nil => intro _ hne; exact absurd rfl hne
  | cons a rest ih =>
    intro h hne
    obtain ⟨ha1, ha2, ha3, hrest⟩ := h
    cases rest with
    | nil => simp only [List.getLast_singleton]; simp only [isPlan] at hrest; omega
    | cons b rest2 =>
      rw [List.getLast_cons (by simp)]
      exact ih hrest (by simp)

theorem isPlan_head {e cs : Nat} {l : List Chunk} (h : isPlan e cs l) (hne : l ≠ []) :
    (l.head hne).start = cs := by
  cases l with
  | nil => exact absurd rfl hne
  | cons a rest => exact h.1

theorem isPlan_cover {e : Nat} : ∀ {cs : Nat} {l : List Chunk}, isPlan e cs l →
    ∀ d, (cs ≤ d ∧ d ≤ e) ↔ ∃ c ∈ l, c.start ≤ d ∧ d ≤ c.«end» := by
  intro cs l
  induction l generalizing cs with
  | nil =>
    intro h d
    simp only [isPlan] at h
    simp only [List.not_mem_nil, false_and, exists_const]
    constructor
    · intro hd; omega
    · intro hd; exact absurd hd (by simp)
  | cons a rest ih =>
    intro h d
    obtain ⟨ha1, ha2, ha3, hrest⟩ := h
    have ihd := ih hrest d
    constructor
    · intro ⟨hd1, hd2⟩
      by_cases hcase : d ≤ a.«end»
      · exact ⟨a, List.mem_cons_self a rest, by omega, hcase⟩
      · obtain ⟨c, hc, hc1, hc2⟩ := ihd.mp (by omega)
        exact ⟨c, List.mem_cons_of_mem a hc, hc1, hc2⟩
    · intro ⟨c, hc, hc1, hc2⟩
      rcases List.mem_cons.mp hc with hc | hc
      · subst hc; omega
      · have := ihd.mpr ⟨c, hc, hc1, hc2⟩
        omega

theorem isPlan_chain {e : Nat} : ∀ {cs : Nat} {l : List Chunk}, isPlan e cs l →
    ∀ i (hi : i + 1 < l.length),
      (l.get ⟨i, Nat.lt_of_succ_lt hi⟩).«end» + 1 = (l.get ⟨i + 1, hi⟩).start := by
  intro cs l
  induction l generalizing cs with
  | nil => intro _ i hi; simp at hi
  | cons a rest ih =>
    intro h i hi
    obtain ⟨ha1, ha2, ha3, hrest⟩ := h
    cases i with
    | zero =>
      cases rest with
      | nil => simp at hi
      | cons b rest2 =>
        simp only [List.get]
        exact hrest.1.symm
    | succ j =>
      simp only [List.length_cons, Nat.add_lt_add_iff_right] at hi
      exact ih hrest j hi

theorem isPlan_drop {e : Nat} : ∀ {cs : Nat} {l : List Chunk}, isPlan e cs l →
    ∀ k (hk : k < l.length), isPlan e ((l.get ⟨k, hk⟩).«end» + 1) (l.drop (k + 1)) := by
  intro cs l
  induction l generalizing cs with
  | nil => intro _ k hk; simp at hk
  | cons a rest ih =>
    intro h k hk
    obtain ⟨ha1, ha2, ha3, hrest⟩ := h
    cases k with
    | zero => simpa using hrest
    | succ j =>
      simp only [List.length_cons, Nat.add_lt_add_iff_right] at hk
      simpa using ih hrest j hk

/-- `chunksGo fuel cs e size = []` whenever the loop condition fails at once. -/
theorem chunksGo_of_gt {cs e : Nat} (fuel size : Nat) (h : e < cs) :
    chunksGo fuel cs e size = [] := by
  cases fuel with
  | zero => rfl
  | succ n =>
    simp only [chunksGo]
    split
    · omega
    · rfl

/-- With enough fuel for the whole range, the planning loop produces a full
contiguous partition of `[cs, e]`. -/
theorem chunksGo_isPlan : ∀ (fuel : Nat) {cs e size : Nat}, 1 ≤ size → cs ≤ e →
    e + 1 - cs ≤ fuel * size → isPlan e cs (chunksGo fuel cs e size) := by
  intro fuel
  induction fuel with
  | zero => intro cs e size hsize hle hbudget; omega
  | succ n ih =>
    intro cs e size hsize hle hbudget
    rw [Nat.succ_mul] at hbudget
    simp only [chunksGo, if_pos hle]
    rcases le_or_lt e (cs + size - 1) with hcase | hcase
    · have hmin : min (cs + size - 1) e = e := by omega
      rw [hmin]
      refine ⟨rfl, ?_, ?_, ?_⟩
      · show cs ≤ e
        exact hle
      · show e ≤ e
        exact Nat.le_refl e
      · show isPlan e (e + 1) (chunksGo n (e + 1) e size)
        rw [chunksGo_of_gt n size (by omega)]
        simp [isPlan]
    · have hmin : min (cs + size - 1) e = cs + size - 1 := by omega
      rw [hmin]
      refine ⟨rfl, ?_, ?_, ?_⟩
      · show cs ≤ cs + size - 1
        omega
      · show cs + size - 1 ≤ e
        omega
      · show isPlan e (cs + size - 1 + 1) (chunksGo n (cs + size - 1 + 1) e size)
        have hnext : cs + size - 1 + 1 = cs + size := by omega
        rw [hnext]
        exact ih hsize (by omega) (by omega)

/-- Job status values of `garmin_sync_jobs.status`. -/
inductive JobStatus
  | pending
  | running
  | completed
  | failed
  | paused
  | cancelled
deriving DecidableEq, Repr

/-- The sync kind of a job (`sync_type`). -/
inductive SyncType
  | incremental
  | historical
deriving DecidableEq, Repr

/-- An entry of the `failed_chunks` jsonb list: window bounds plus error message. -/
structure FailedChunk where
  start : Nat
  «end» : Nat
  error : String
deriving DecidableEq, Repr

/-- A row of `public.garmin_sync_jobs`, restricted to the columns the sync
engine reads or writes.  Timestamp columns are omitted, and the model is per
owner, so `user_id` is ambient. -/
structure SyncJob where
  id : Nat
  status : JobStatus
  sync_type : SyncType
  start_date : Nat
  end_date : Nat
  metric_types : Option (List String)
  chunks_total : Nat
  chunks_completed : Nat
  last_successful_date : Option Nat
  current_chunk_start : Option Nat
  current_chunk_end : Option Nat
  failed_chunks : List FailedChunk
  error_message : Option String
  skip_existing : Bool
deriving DecidableEq, Repr

namespace GarminSyncWorker

/-- `updateJobStatus` of the worker script: `UPDATE ... SET status = $2`
(timestamp columns omitted) plus the optional extra fields — only
`error_message` is ever passed. -/
def updateJobStatus (row : SyncJob) (status : JobStatus)
    (errorMessage : Option String) : SyncJob :=
  { row with
    status := status
    error_message := match errorMessage with
      | some m => some m
      | none => row.error_message }

/-- `updateJobProgress` of the worker script: the SQL update writing the four
progress columns (`current_chunk_start`, `current_chunk_end`,
`chunks_completed`, `last_successful_date`). -/
def updateJobProgress (row : SyncJob) (ccs cce : Nat) (cc : Nat)
    (lsd : Option Nat) : SyncJob :=
  { row with
    current_chunk_start := some ccs
    current_chunk_end := some cce
    chunks_completed := cc
    last_successful_date := lsd }

/-- `addFailedChunk` of the worker script:
`failed_chunks = failed_chunks || $2::jsonb` (append). -/
def addFailedChunk (row : SyncJob) (fc : FailedChunk) : SyncJob :=
  { row with failed_chunks := row.failed_chunks ++ [fc] }

/-- `updateLastSyncDate` of the worker script: conditional SQL update of
`external_data_providers.last_successful_sync_date`, applied only when the
stored value `IS NULL` or is strictly smaller than the new date. -/
def updateLastSyncDate (syncDate : Nat) (stored : Option Nat) : Option Nat :=
  match stored with
  | none => some syncDate
  | some d => if d < syncDate then some syncDate else some d

/-- The resume-set computation of `processJob`: replan the full range and
keep the chunks whose start `isSameOrAfter` the day after the watermark (or
the job start date when there is no watermark). -/
def remainingChunks (job : SyncJob) : List Chunk :=
  let allChunks := calculateChunks job.start_date job.end_date CHUNK_SIZE_DAYS
  let startFromDate := match job.last_successful_date with
    | some d => d + 1
    | none => job.start_date
  allChunks.filter (fun c => decide (startFromDate ≤ c.start))

/--
One loop iteration of the worker `processJob`: the optional skip-existing
shortcut, the in-flight progress write, the fetch/persist collaborator calls,
and the success write or the failed-chunk append.

The external collaborators (`syncGarminHealthAndWellness`,
`processGarminHealthAndWellnessData`, `processGarminSleepData`,
`fetchGarminActivitiesAndWorkouts`, `processActivitiesAndWorkouts`) are
outside the engine (spec treats them as opaque fallible calls for a window);
a run is parameterised by the oracle `fetch`, which either succeeds for a
window or raises the first error message, and by `hasData`, the
existing-data probe `hasGarminDataForDateRange`.

`snap` is the job row as loaded when the job was claimed (the source reads
`job.chunks_completed` and `job.last_successful_date` from that stale
closure), `i` the index within the remaining set, `row` the currently stored
row.  Returns the new stored row and the writes performed, in order.
-/
def processOneChunk (snap : SyncJob) (fetch : Chunk → Except String Unit)
    (hasData : Chunk → Bool) (i : Nat) (chunk : Chunk) (row : SyncJob) :
    SyncJob × List SyncJob :=
  if snap.skip_existing && hasData chunk then
    let r := updateJobProgress row chunk.start chunk.«end»
      (snap.chunks_completed + i + 1) (some chunk.«end»)
    (r, [r])
  else
    let r1 := updateJobProgress row chunk.start chunk.«end»
      (snap.chunks_completed + i) snap.last_successful_date
    match fetch chunk with
    | Except.ok _ =>
      let r2 := updateJobProgress r1 chunk.start chunk.«end»
        (snap.chunks_completed + i + 1) (some chunk.«end»)
      (r2, [r1, r2])
    | Except.error msg =>
      let r2 := addFailedChunk r1 ⟨chunk.start, chunk.«end», msg⟩
      (r2, [r1, r2])

/-- The chunk loop of the worker `processJob`, with the graceful-shutdown
check at the top of each iteration (`isShuttingDown`, modelled as a predicate
on the loop index).  Returns the final row, the writes in order, and whether
the loop stopped early by pausing. -/
def workerLoop (snap : SyncJob) (fetch : Chunk → Except String Unit)
    (hasData : Chunk → Bool) (shutdown : Nat → Bool) :
    Nat → List Chunk → SyncJob → SyncJob × List SyncJob × Bool
  | _, [], row => (row, [], false)
  | i, c :: cs, row =>
    if shutdown i then
      let r := updateJobStatus row JobStatus.paused none
      (r, [r], true)
    else
      let step := processOneChunk snap fetch hasData i c row
      let rest := workerLoop snap fetch hasData shutdown (i + 1) cs step.1
      (rest.1, step.2 ++ rest.2.1, rest.2.2)

/-- `processJob` of the worker script: mark the job running, compute the
resume set, run the chunk loop, and on normal exhaustion mark the job
completed and advance the owner watermark (monotonically).  Returns the final
row, the final owner watermark, and the trace of stored rows after each
write. -/
def processJob (fetch : Chunk → Except String Unit) (hasData : Chunk → Bool)
    (shutdown : Nat → Bool) (job : SyncJob) (watermark : Option Nat) :
    SyncJob × Option Nat × List SyncJob :=
  let r0 := updateJobStatus job JobStatus.running none
  let res := workerLoop job fetch hasData shutdown 0 (remainingChunks job) r0
  if res.2.2 then
    (res.1, watermark, r0 :: res.2.1)
  else
    let r2 := updateJobStatus res.1 JobStatus.completed none
    let wm := updateLastSyncDate job.end_date watermark
    (r2, wm, r0 :: res.2.1 ++ [r2])

end GarminSyncWorker

namespace GarminSyncJobService

/-- The owner's `external_data_providers` garmin row (the field the engine
uses). -/
structure Provider where
  last_successful_sync_date : Option Nat
deriving DecidableEq, Repr

/-- The per-owner persistent state seen by the job controller. -/
structure ControllerState where
  jobs : List SyncJob
  provider : Option Provider
deriving DecidableEq, Repr

/-- Modelled from the spec: the Job Store operation `get_active(owner) ->
SyncJob | none` (spec, section 4.2) — the owner job whose status is `pending`
or `running`; the repository module `garminSyncJobRepository` is not among
the provided sources, only its callers are. -/
def getActiveJob (jobs : List SyncJob) : Option SyncJob :=
  jobs.find? (fun j => decide (j.status = JobStatus.pending ∨ j.status = JobStatus.running))

/-- Modelled from the spec: the Job Store operation `create(owner, config) ->
SyncJob` in `pending` (spec, section 4.2), with a fresh id and zeroed
progress fields; the repository module `garminSyncJobRepository` is not among
the provided sources, only its callers are. -/
def createJob (jobs : List SyncJob) (startDate endDate : Nat)
    (syncType : SyncType) (metricTypes : Option (List String))
    (chunksTotal : Nat) (skipExisting : Bool) : SyncJob × List SyncJob :=
  let j : SyncJob := {
    id := jobs.length
    status := JobStatus.pending
    sync_type := syncType
    start_date := startDate
    end_date := endDate
    metric_types := metricTypes
    chunks_total := chunksTotal
    chunks_completed := 0
    last_successful_date := none
    current_chunk_start := none
    current_chunk_end := none
    failed_chunks := []
    error_message := none
    skip_existing := skipExisting }
  (j, jobs ++ [j])

/-- Result values of the start operations; errors thrown by the source are
modelled as the `failure` result (in both encodings no job is created). -/
inductive StartResult
  | alreadyRunning (jobId : Nat)
  | upToDate
  | started (jobId : Nat) (chunksTotal : Nat) (startDate endDate : Nat)
  | failure (msg : String)
deriving DecidableEq, Repr

/-- `startIncrementalSync` of `garminSyncJobService.js`; `today` is the
current date `moment()`. -/
def startIncrementalSync (today : Nat) (metricTypes : Option (List String))
    (st : ControllerState) : StartResult × ControllerState :=
  match getActiveJob st.jobs with
  | some activeJob => (StartResult.alreadyRunning activeJob.id, st)
  | none =>
    match st.provider with
    | none =>
      (StartResult.failure "Garmin not connected. Please link your Garmin account first.", st)
    | some provider =>
      let endDate := today
      let startDate := match provider.last_successful_sync_date with
        | some d => d + 1
        | none => today - 7
      if endDate < startDate then
        (StartResult.upToDate, st)
      else
        let chunks := calculateChunks startDate endDate CHUNK_SIZE_DAYS
        let created := createJob st.jobs startDate endDate SyncType.incremental
          metricTypes chunks.length false
        (StartResult.started created.1.id chunks.length startDate endDate,
          { st with jobs := created.2 })

/-- `startHistoricalSync` of `garminSyncJobService.js`; a missing or invalid
date string (the `moment(...).isValid()` check) is modelled as a `none`
argument.  The `estimatedMinutes` of the response is not modelled. -/
def startHistoricalSync (startDateOpt endDateOpt : Option Nat) (today : Nat)
    (metricTypes : Option (List String)) (skipExisting : Bool)
    (st : ControllerState) : StartResult × ControllerState :=
  match startDateOpt, endDateOpt with
  | some startDate, some endDate =>
    if endDate < startDate then
      (StartResult.failure "startDate must be before endDate", st)
    else if today < endDate then
      (StartResult.failure "endDate cannot be in the future", st)
    else
      match getActiveJob st.jobs with
      | some activeJob => (StartResult.alreadyRunning activeJob.id, st)
      | none =>
        match st.provider with
        | none =>
          (StartResult.failure "Garmin not connected. Please link your Garmin account first.", st)
        | some _ =>
          let chunks := calculateChunks startDate endDate CHUNK_SIZE_DAYS
          let created := createJob st.jobs startDate endDate SyncType.historical
            metricTypes chunks.length skipExisting
          (StartResult.started created.1.id chunks.length startDate endDate,
            { st with jobs := created.2 })
  | _, _ => (StartResult.failure "startDate and endDate are required", st)

end GarminSyncJobService

/-- Leap-year test of the Gregorian calendar. -/
def isLeap (y : Nat) : Bool :=
  (y % 4 == 0 && y % 100 != 0) || (y % 400 == 0)

/-- Days in the months before month `m` (1-based) of a year. -/
def daysBeforeMonth (leap : Bool) (m : Nat) : Nat :=
  [0, 31, 59, 90, 120, 151, 181, 212, 243, 273, 304, 334].getD (m - 1) 0 +
    (if leap && 2 < m then 1 else 0)

/-- Proleptic-Gregorian ordinal of a calendar date (day 1 = 0001-01-01), the
embedding of the `YYYY-MM-DD` strings the source passes around. -/
def toOrdinal (y m d : Nat) : Nat :=
  365 * (y - 1) + (y - 1) / 4 - (y - 1) / 100 + (y - 1) / 400 +
    daysBeforeMonth (isLeap y) m + d

/-- Filtering a plan for starts strictly past the end of its `k`-th window
drops exactly the first `k + 1` windows. -/
theorem isPlan_filter_drop {e : Nat} : ∀ {cs : Nat} {l : List Chunk}, isPlan e cs l →
    ∀ k (hk : k < l.length),
      l.filter (fun c => decide ((l.get ⟨k, hk⟩).«end» + 1 ≤ c.start)) = l.drop (k + 1) := by
  intro cs l
  induction l generalizing cs with
  | nil => intro _ k hk; simp at hk
  | cons a rest ih =>
    intro h k hk
    obtain ⟨ha1, ha2, ha3, hrest⟩ := h
    cases k with
    | zero =>
      simp only [List.get, List.drop_succ_cons, List.drop_zero]
      rw [List.filter_cons_of_neg (by simp; omega)]
      apply List.filter_eq_self.mpr
      intro b hb
      have := isPlan_mem hrest b hb
      simp only [decide_eq_true_eq]
      omega
    | succ j =>
      simp only [List.length_cons, Nat.add_lt_add_iff_right] at hk
      simp only [List.get, List.drop_succ_cons]
      have hmem := isPlan_mem hrest (rest.get ⟨j, hk⟩) (rest.get_mem j hk)
      rw [List.filter_cons_of_neg (by simp only [decide_eq_true_eq]; omega)]
      exact ih hrest j hk

/-- C1: for every `start ≤ end` and chunk size at least 1, within the
iteration cap, `calculateChunks` returns a non-empty sequence of windows that
starts at `start`, is contiguous (each window end + 1 day is the next window
start), is non-overlapping, whose union covers `[start, end]` exactly, and
whose final window ends at `end`. -/
theorem chunk_plan_coverage (s e size : Nat) (h1 : s ≤ e) (h2 : 1 ≤ size)
    (hcap : e - s < maxIterations * size) :
    GarminSyncJobService.calculateChunks s e size ≠ [] ∧
    ((GarminSyncJobService.calculateChunks s e size).head?.map (fun c => c.start) = some s) ∧
    ((GarminSyncJobService.calculateChunks s e size).getLast?.map (fun c => c.«end») = some e) ∧
    (∀ i (hi : i + 1 < (GarminSyncJobService.calculateChunks s e size).length),
      ((GarminSyncJobService.calculateChunks s e size).get ⟨i, Nat.lt_of_succ_lt hi⟩).«end» + 1 =
        ((GarminSyncJobService.calculateChunks s e size).get ⟨i + 1, hi⟩).start) ∧
    List.Pairwise (fun a b => a.«end» < b.start) (GarminSyncJobService.calculateChunks s e size) ∧
    (∀ d, (s ≤ d ∧ d ≤ e) ↔ ∃ c ∈ GarminSyncJobService.calculateChunks s e size,
      c.start ≤ d ∧ d ≤ c.«end») := by
  have hbudget : e + 1 - s ≤ maxIterations * size := by omega
  have hplan : isPlan e s (GarminSyncJobService.calculateChunks s e size) :=
    chunksGo_isPlan maxIterations h2 h1 hbudget
  have hne : GarminSyncJobService.calculateChunks s e size ≠ [] := isPlan_ne_nil hplan h1
  refine ⟨hne, ?_, ?_, isPlan_chain hplan, isPlan_pairwise hplan, isPlan_cover hplan⟩
  · rw [List.head?_eq_head hne]
    simp [isPlan_head hplan hne]
  · rw [List.getLast?_eq_getLast _ hne]
    simp [isPlan_getLast hplan hne]

/-- Witness for `chunk_plan_coverage` at a concrete input. -/
theorem chunk_plan_coverage_witness :
    GarminSyncJobService.calculateChunks 10 25 7 ≠ [] :=
  (chunk_plan_coverage 10 25 7 (by decide) (by decide) (by decide)).1

/-- C10: when `start_date` is strictly after `end_date`, both planner
variants return the empty sequence (the loop body never runs). -/
theorem calculateChunks_empty_when_start_after_end (s e size : Nat) (h : e < s) :
    GarminSyncJobService.calculateChunks s e size = [] ∧
    GarminSyncWorker.calculateChunks s e size = [] :=
  ⟨chunksGo_of_gt maxIterations size h, chunksGo_of_gt maxIterations size h⟩

/-- Witness for `calculateChunks_empty_when_start_after_end` at a concrete input. -/
theorem calculateChunks_empty_when_start_after_end_witness :
    GarminSyncJobService.calculateChunks 5 3 7 = [] :=
  (calculateChunks_empty_when_start_after_end 5 3 7 (by decide)).1

set_option maxRecDepth 100000 in
/-- C7 (the behaviour the code actually has): on a range needing more windows
than the cap — here 1001 one-day windows — both planner variants silently
return the first 1000 windows, the truncated plan ending at day 999 instead
of the requested end date 1000; no error value exists in the return type. -/
theorem calculateChunks_cap_truncates :
    (GarminSyncJobService.calculateChunks 0 1000 1).length = 1000 ∧
    (GarminSyncJobService.calculateChunks 0 1000 1).getLast?.map (fun c => c.«end») = some 999 ∧
    (GarminSyncWorker.calculateChunks 0 1000 1).length = 1000 ∧
    (GarminSyncWorker.calculateChunks 0 1000 1).getLast?.map (fun c => c.«end») = some 999 := by
  refine ⟨?_, ?_, ?_, ?_⟩ <;> decide

/-- C6: the watermark advance is a no-op for a date at or below the stored
watermark, updates it for a strictly later date or when none is stored, and
never regresses the stored value. -/
theorem watermark_advance_monotone (stored : Option Nat) (d : Nat) :
    (∀ w, stored = some w → d ≤ w →
      GarminSyncWorker.updateLastSyncDate d stored = some w) ∧
    (∀ w, stored = some w → w < d →
      GarminSyncWorker.updateLastSyncDate d stored = some d) ∧
    (stored = none → GarminSyncWorker.updateLastSyncDate d stored = some d) ∧
    (∀ w, stored = some w → ∃ w2,
      GarminSyncWorker.updateLastSyncDate d stored = some w2 ∧ w ≤ w2) := by
  refine ⟨?_, ?_, ?_, ?_⟩
  · intro w hw hd
    subst hw
    simp only [GarminSyncWorker.updateLastSyncDate]
    rw [if_neg (show ¬ w < d by omega)]
  · intro w hw hd
    subst hw
    simp only [GarminSyncWorker.updateLastSyncDate, if_pos hd]
  · intro hw
    subst hw
    rfl
  · intro w hw
    subst hw
    simp only [GarminSyncWorker.updateLastSyncDate]
    split
    · exact ⟨d, rfl, by omega⟩
    · exact ⟨w, rfl, Nat.le_refl w⟩

/-- Witness for `watermark_advance_monotone` at concrete inputs. -/
theorem watermark_advance_monotone_witness :
    GarminSyncWorker.updateLastSyncDate 3 (some 5) = some 5 :=
  (watermark_advance_monotone (some 5) 3).1 5 rfl (by decide)

/-- C2: replanning a job and filtering to chunks starting strictly after the
watermark yields exactly the suffix of the plan after the watermark chunk;
with no watermark it yields the full plan; and the computation depends only
on the job configuration (determinism). -/
theorem remaining_chunks_resume (s e : Nat) (h1 : s ≤ e)
    (hcap : e - s < maxIterations * CHUNK_SIZE_DAYS) :
    (∀ job : SyncJob, job.start_date = s → job.end_date = e →
      job.last_successful_date = none →
      GarminSyncWorker.remainingChunks job =
        GarminSyncWorker.calculateChunks s e CHUNK_SIZE_DAYS) ∧
    (∀ job : SyncJob,
      ∀ k (hk : k < (GarminSyncWorker.calculateChunks s e CHUNK_SIZE_DAYS).length),
      job.start_date = s → job.end_date = e →
      job.last_successful_date =
        some (((GarminSyncWorker.calculateChunks s e CHUNK_SIZE_DAYS).get ⟨k, hk⟩).«end») →
      GarminSyncWorker.remainingChunks job =
        (GarminSyncWorker.calculateChunks s e CHUNK_SIZE_DAYS).drop (k + 1)) ∧
    (∀ job job2 : SyncJob, job.start_date = job2.start_date →
      job.end_date = job2.end_date →
      job.last_successful_date = job2.last_successful_date →
      GarminSyncWorker.remainingChunks job = GarminSyncWorker.remainingChunks job2) := by
  have hsize : 1 ≤ CHUNK_SIZE_DAYS := by decide
  have hbudget : e + 1 - s ≤ maxIterations * CHUNK_SIZE_DAYS := by omega
  have hplan : isPlan e s (GarminSyncWorker.calculateChunks s e CHUNK_SIZE_DAYS) :=
    chunksGo_isPlan maxIterations hsize h1 hbudget
  refine ⟨?_, ?_, ?_⟩
  · intro job hjs hje hlsd
    simp only [GarminSyncWorker.remainingChunks, hjs, hje, hlsd]
    apply List.filter_eq_self.mpr
    intro c hc
    have := isPlan_mem hplan c hc
    simp only [decide_eq_true_eq]
    omega
  · intro job k hk hjs hje hlsd
    simp only [GarminSyncWorker.remainingChunks, hjs, hje, hlsd]
    exact isPlan_filter_drop hplan k hk
  · intro job job2 e1 e2 e3
    simp only [GarminSyncWorker.remainingChunks, e1, e2, e3]

/-- Witness for `remaining_chunks_resume` at a concrete job. -/
theorem remaining_chunks_resume_witness :
    GarminSyncWorker.remainingChunks
      ⟨0, JobStatus.pending, SyncType.incremental, 0, 13, none, 2, 0,
        none, none, none, [], none, false⟩ =
      GarminSyncWorker.calculateChunks 0 13 CHUNK_SIZE_DAYS :=
  (remaining_chunks_resume 0 13 (by decide) (by decide)).1 _ rfl rfl rfl

namespace GarminSyncWorker

/-- Whether a fetch-and-persist outcome is a success. -/
def fetchOk : Except String Unit → Bool
  | Except.ok _ => true
  | Except.error _ => false

/-- The failed-chunks entry one chunk contributes during a run: none when the
skip-existing shortcut applies or the fetch succeeds, otherwise the window
bounds with the error message. -/
def chunkFails (snap : SyncJob) (fetch : Chunk → Except String Unit)
    (hasData : Chunk → Bool) (c : Chunk) : Option FailedChunk :=
  if snap.skip_existing && hasData c then none
  else
    match fetch c with
    | Except.ok _ => none
    | Except.error msg => some ⟨c.start, c.«end», msg⟩

/-- The amount one chunk iteration adds to the stored `chunks_completed` by
its end: 1 when skipped or fetched successfully, 0 on failure. -/
def chunkCredit (snap : SyncJob) (fetch : Chunk → Except String Unit)
    (hasData : Chunk → Bool) (c : Chunk) : Nat :=
  if snap.skip_existing && hasData c then 1
  else
    match fetch c with
    | Except.ok _ => 1
    | Except.error _ => 0

theorem updateJobStatus_status (r : SyncJob) (st : JobStatus) (em : Option String) :
    (updateJobStatus r st em).status = st := rfl

theorem updateJobStatus_failed_chunks (r : SyncJob) (st : JobStatus) (em : Option String) :
    (updateJobStatus r st em).failed_chunks = r.failed_chunks := rfl

theorem processOneChunk_status (snap : SyncJob) (fetch : Chunk → Except String Unit)
    (hasData : Chunk → Bool) (i : Nat) (c : Chunk) (row : SyncJob) :
    (processOneChunk snap fetch hasData i c row).1.status = row.status := by
  simp only [processOneChunk]
  split
  · rfl
  · cases hf : fetch c <;> rfl

theorem processOneChunk_failed_chunks (snap : SyncJob) (fetch : Chunk → Except String Unit)
    (hasData : Chunk → Bool) (i : Nat) (c : Chunk) (row : SyncJob) :
    (processOneChunk snap fetch hasData i c row).1.failed_chunks =
      row.failed_chunks ++ (chunkFails snap fetch hasData c).toList := by
  simp only [processOneChunk, chunkFails]
  split
  · simp [updateJobProgress]
  · cases hf : fetch c
    · simp [updateJobProgress, addFailedChunk]
    · simp [updateJobProgress]

theorem processOneChunk_cc (snap : SyncJob) (fetch : Chunk → Except String Unit)
    (hasData : Chunk → Bool) (i : Nat) (c : Chunk) (row : SyncJob) :
    (processOneChunk snap fetch hasData i c row).1.chunks_completed =
      snap.chunks_completed + i + chunkCredit snap fetch hasData c := by
  simp only [processOneChunk, chunkCredit]
  split
  · rfl
  · cases hf : fetch c
    · simp [addFailedChunk, updateJobProgress]
    · simp [updateJobProgress]

theorem processOneChunk_failed_lsd (snap : SyncJob) (fetch : Chunk → Except String Unit)
    (hasData : Chunk → Bool) (i : Nat) (c : Chunk) (row : SyncJob) (msg : String)
    (hf : fetch c = Except.error msg) (hskip : (snap.skip_existing && hasData c) = false) :
    (processOneChunk snap fetch hasData i c row).1.last_successful_date =
      snap.last_successful_date := by
  simp only [processOneChunk, hskip, Bool.false_eq_true, if_false, hf]
  simp [addFailedChunk, updateJobProgress]

/-- Loop invariant of the chunk loop when no shutdown is requested: it never
pauses, leaves the status untouched, and appends exactly the failures of the
visited chunks, in order. -/
theorem workerLoop_no_shutdown (snap : SyncJob) (fetch : Chunk → Except String Unit)
    (hasData : Chunk → Bool) :
    ∀ (l : List Chunk) (i : Nat) (row : SyncJob),
      (workerLoop snap fetch hasData (fun _ => false) i l row).2.2 = false ∧
      (workerLoop snap fetch hasData (fun _ => false) i l row).1.status = row.status ∧
      (workerLoop snap fetch hasData (fun _ => false) i l row).1.failed_chunks =
        row.failed_chunks ++ l.filterMap (chunkFails snap fetch hasData) := by
  intro l
  induction l with
  | nil => intro i row; refine ⟨rfl, rfl, by simp [workerLoop]⟩
  | cons c cs ih =>
    intro i row
    have hstep := ih (i + 1) (processOneChunk snap fetch hasData i c row).1
    simp only [workerLoop, Bool.false_eq_true, if_false]
    refine ⟨hstep.1, ?_, ?_⟩
    · rw [hstep.2.1, processOneChunk_status]
    · rw [hstep.2.2, processOneChunk_failed_chunks]
      cases hc : chunkFails snap fetch hasData c <;> simp [List.filterMap_cons, hc]

/-- C4: with no shutdown request, a worker run records every chunk failure
(window bounds plus error message) in `failed_chunks`, in order, keeps going
past failures, finishes with status `completed` regardless of them, and a
failed chunk leaves `last_successful_date` at the run snapshot value rather
than advancing it to the chunk end. -/
theorem processJob_partial_failure (fetch : Chunk → Except String Unit)
    (hasData : Chunk → Bool) (job : SyncJob) (wm : Option Nat) :
    (GarminSyncWorker.processJob fetch hasData (fun _ => false) job wm).1.status =
      JobStatus.completed ∧
    (GarminSyncWorker.processJob fetch hasData (fun _ => false) job wm).1.failed_chunks =
      job.failed_chunks ++
        (GarminSyncWorker.remainingChunks job).filterMap
          (GarminSyncWorker.chunkFails job fetch hasData) ∧
    (∀ i c row msg, fetch c = Except.error msg →
      (job.skip_existing && hasData c) = false →
      (GarminSyncWorker.processOneChunk job fetch hasData i c row).1.last_successful_date =
        job.last_successful_date ∧
      (GarminSyncWorker.processOneChunk job fetch hasData i c row).1.failed_chunks =
        row.failed_chunks ++ [⟨c.start, c.«end», msg⟩]) := by
  have hloop := workerLoop_no_shutdown job fetch hasData (remainingChunks job) 0
    (updateJobStatus job JobStatus.running none)
  refine ⟨?_, ?_, ?_⟩
  · simp only [processJob, hloop.1, Bool.false_eq_true, if_false]
    rfl
  · simp only [processJob, hloop.1, Bool.false_eq_true, if_false]
    rw [updateJobStatus_failed_chunks, hloop.2.2, updateJobStatus_failed_chunks]
  · intro i c row msg hf hskip
    refine ⟨processOneChunk_failed_lsd job fetch hasData i c row msg hf hskip, ?_⟩
    rw [processOneChunk_failed_chunks]
    simp [chunkFails, hskip, hf]

end GarminSyncWorker

/-- Witness for `processJob_partial_failure`: a two-chunk job whose first
chunk fails still completes. -/
theorem processJob_partial_failure_witness :
    (GarminSyncWorker.processJob
      (fun c => if c.start == 0 then Except.error "boom" else Except.ok ())
      (fun _ => false) (fun _ => false)
      ⟨1, JobStatus.pending, SyncType.historical, 0, 13, none, 2, 0,
        none, none, none, [], none, false⟩ none).1.status = JobStatus.completed :=
  (GarminSyncWorker.processJob_partial_failure
    (fun c => if c.start == 0 then Except.error "boom" else Except.ok ())
    (fun _ => false)
    ⟨1, JobStatus.pending, SyncType.historical, 0, 13, none, 2, 0,
      none, none, none, [], none, false⟩ none).1

namespace GarminSyncWorker

/-- Stored `chunks_completed` after a no-shutdown loop over a non-empty chunk
list: the snapshot count, plus the start index, plus one less than the number
of chunks visited, plus the credit of the last chunk visited. -/
theorem workerLoop_cc (snap : SyncJob) (fetch : Chunk → Except String Unit)
    (hasData : Chunk → Bool) :
    ∀ (l : List Chunk) (c : Chunk), l.getLast? = some c →
      ∀ (i : Nat) (row : SyncJob),
      (workerLoop snap fetch hasData (fun _ => false) i l row).1.chunks_completed =
        snap.chunks_completed + i + (l.length - 1) +
          chunkCredit snap fetch hasData c := by
  intro l
  induction l with
  | nil => intro c hc i row; simp at hc
  | cons a cs ih =>
    intro c hc i row
    simp only [workerLoop, Bool.false_eq_true, if_false]
    cases cs with
    | nil =>
      rw [List.getLast?_singleton] at hc
      obtain rfl := (Option.some_inj.mp hc)
      simp only [workerLoop]
      rw [processOneChunk_cc]
      simp
    | cons b cs2 =>
      have hc2 : (b :: cs2).getLast? = some c := by
        rwa [List.getLast?_cons_cons] at hc
      rw [ih c hc2 (i + 1) (processOneChunk snap fetch hasData i a row).1]
      simp only [List.length_cons]
      omega

/-- A chunk credit is zero or one. -/
theorem chunkCredit_le_one (snap : SyncJob) (fetch : Chunk → Except String Unit)
    (hasData : Chunk → Bool) (c : Chunk) :
    chunkCredit snap fetch hasData c ≤ 1 := by
  simp only [chunkCredit]
  split
  · exact Nat.le_refl 1
  · cases fetch c <;> simp

/-- The chunk credit is one exactly when the chunk is intercepted by the
skip-existing shortcut or its fetch succeeds. -/
theorem chunkCredit_eq_one_iff (snap : SyncJob) (fetch : Chunk → Except String Unit)
    (hasData : Chunk → Bool) (c : Chunk) :
    chunkCredit snap fetch hasData c = 1 ↔
      ((snap.skip_existing && hasData c) = true ∨ fetchOk (fetch c) = true) := by
  simp only [chunkCredit]
  split
  · simp [*]
  · rename_i hcond
    cases hfc : fetch c <;> simp [hcond, fetchOk]

end GarminSyncWorker

/-- The last element of a non-trivial `take` is the element before the cut. -/
theorem take_getLast? {α : Type} (l : List α) (i : Nat) (h0 : 0 < i)
    (hi : i ≤ l.length) (h : i - 1 < l.length) :
    (l.take i).getLast? = some (l.get ⟨i - 1, h⟩) := by
  rw [List.getLast?_eq_getElem?]
  have hlen : (l.take i).length = i := by simp [Nat.min_eq_left hi]
  rw [hlen, List.getElem?_take, if_pos (by omega)]
  simp [List.getElem?_eq_getElem h]

/-- C8 (amended): a chunk that the skip-existing shortcut does not intercept
receives an in-flight write before its fetch; that write sets the current
chunk bounds and rewrites `chunks_completed` to (snapshot at claim) + i and
`last_successful_date` to the snapshot value, leaving status, failed chunks,
totals and error message untouched.  The stored `chunks_completed` is left
unchanged by this write exactly when `i = 0` or the immediately preceding
chunk of the run was skipped or fetched successfully — after a failed
predecessor the write increases the stored count by one.  (A skipped chunk
itself gets no in-flight write: the source continues to the next chunk after
its single completed-form write.) -/
theorem inflight_write_behaviour (fetch : Chunk → Except String Unit)
    (hasData : Chunk → Bool) (job : SyncJob)
    (chunks : List Chunk) (i : Nat) (hi : i < chunks.length) (row0 : SyncJob)
    (h0 : row0.chunks_completed = job.chunks_completed) :
    ∀ before : SyncJob,
      before = (GarminSyncWorker.workerLoop job fetch hasData (fun _ => false) 0
        (chunks.take i) row0).1 →
      ∀ c : Chunk, c = chunks.get ⟨i, hi⟩ →
      (job.skip_existing && hasData c) = false →
      ∀ w : SyncJob,
        w = GarminSyncWorker.updateJobProgress before c.start c.«end»
          (job.chunks_completed + i) job.last_successful_date →
        (GarminSyncWorker.processOneChunk job fetch hasData i c before).2.head? = some w ∧
        w.current_chunk_start = some c.start ∧
        w.current_chunk_end = some c.«end» ∧
        w.chunks_completed = job.chunks_completed + i ∧
        w.last_successful_date = job.last_successful_date ∧
        w.status = before.status ∧
        w.failed_chunks = before.failed_chunks ∧
        w.chunks_total = before.chunks_total ∧
        w.error_message = before.error_message ∧
        (before.chunks_completed = w.chunks_completed ↔
          (i = 0 ∨ ∃ hj : i - 1 < chunks.length,
            (job.skip_existing && hasData (chunks.get ⟨i - 1, hj⟩)) = true ∨
            GarminSyncWorker.fetchOk (fetch (chunks.get ⟨i - 1, hj⟩)) = true)) := by
  intro before hb c hc hnoskip w hw
  subst hw
  refine ⟨?_, rfl, rfl, rfl, rfl, rfl, rfl, rfl, rfl, ?_⟩
  · simp only [GarminSyncWorker.processOneChunk, hnoskip, Bool.false_eq_true, if_false]
    cases hfc : fetch c <;> rfl
  · show before.chunks_completed = job.chunks_completed + i ↔ _
    cases i with
    | zero =>
      subst hb
      simp only [List.take_zero, GarminSyncWorker.workerLoop, h0]
      simp
    | succ j =>
      have hj : j < chunks.length := by omega
      have hlast : (chunks.take (j + 1)).getLast? = some (chunks.get ⟨j, hj⟩) := by
        have := take_getLast? chunks (j + 1) (by omega) (by omega) (by simpa using hj)
        simpa using this
      have hcc := GarminSyncWorker.workerLoop_cc job fetch hasData (chunks.take (j + 1))
        (chunks.get ⟨j, hj⟩) hlast 0 row0
      rw [hb, hcc]
      have hlen : (chunks.take (j + 1)).length = j + 1 := by
        simp [Nat.min_eq_left (by omega : j + 1 ≤ chunks.length)]
      rw [hlen]
      have hle := GarminSyncWorker.chunkCredit_le_one job fetch hasData (chunks.get ⟨j, hj⟩)
      have hiff := GarminSyncWorker.chunkCredit_eq_one_iff job fetch hasData
        (chunks.get ⟨j, hj⟩)
      have hgetsame : chunks.get ⟨j + 1 - 1, hj⟩ = chunks.get ⟨j, hj⟩ := rfl
      constructor
      · intro heq
        right
        refine ⟨hj, ?_⟩
        rw [hgetsame]
        exact hiff.mp (by omega)
      · intro hor
        rcases hor with hor | ⟨hj2, hok⟩
        · omega
        · have hcr1 : GarminSyncWorker.chunkCredit job fetch hasData
              (chunks.get ⟨j, hj⟩) = 1 := by
            apply hiff.mpr
            rw [← hgetsame]
            exact hok
          omega

/-- Fetch oracle that fails on the window starting at day 0 and succeeds
elsewhere. -/
def failFirstFetch : Chunk → Except String Unit :=
  fun c => if c.start == 0 then Except.error "boom" else Except.ok ()

/-- A freshly created two-chunk job over days 0..13 (chunk size 7), skip
disabled, no progress yet. -/
def twoChunkJob : SyncJob :=
  ⟨1, JobStatus.pending, SyncType.historical, 0, 13, none, 2, 0,
    none, none, none, [], none, false⟩

/-- The stored row just before the second chunk of a `twoChunkJob` run whose
first chunk failed. -/
def rowBeforeSecond : SyncJob :=
  (GarminSyncWorker.workerLoop twoChunkJob failFirstFetch (fun _ => false)
    (fun _ => false) 0 (([⟨0, 6⟩, ⟨7, 13⟩] : List Chunk).take 1) twoChunkJob).1

/-- Witness for `inflight_write_behaviour`: the first write of the second
chunk iteration is exactly the in-flight progress write. -/
theorem inflight_write_behaviour_witness :
    (GarminSyncWorker.processOneChunk twoChunkJob failFirstFetch (fun _ => false) 1
      (⟨7, 13⟩ : Chunk) rowBeforeSecond).2.head? =
      some (GarminSyncWorker.updateJobProgress rowBeforeSecond 7 13
        (twoChunkJob.chunks_completed + 1) twoChunkJob.last_successful_date) :=
  (inflight_write_behaviour failFirstFetch (fun _ => false) twoChunkJob
    ([⟨0, 6⟩, ⟨7, 13⟩] : List Chunk) 1 (by decide) twoChunkJob rfl
    rowBeforeSecond rfl (⟨7, 13⟩ : Chunk) rfl rfl
    (GarminSyncWorker.updateJobProgress rowBeforeSecond 7 13
      (twoChunkJob.chunks_completed + 1) twoChunkJob.last_successful_date) rfl).1

/-- C8 counterexample: on a two-chunk run whose first chunk fails, the
in-flight write for the second chunk (trace entry 3, bounds 7..13) raises the
stored `chunks_completed` from 0 to 1 — it does not leave it unchanged. -/
theorem inflight_bumps_cc_after_failure :
    ((GarminSyncWorker.processJob failFirstFetch (fun _ => false) (fun _ => false)
      twoChunkJob none).2.2.map (fun r => r.chunks_completed)) = [0, 0, 0, 1, 2, 2] ∧
    ((GarminSyncWorker.processJob failFirstFetch (fun _ => false) (fun _ => false)
      twoChunkJob none).2.2[3]?.map (fun r => r.current_chunk_start)) = some (some 7) ∧
    ((GarminSyncWorker.processJob failFirstFetch (fun _ => false) (fun _ => false)
      twoChunkJob none).2.2[2]?.map (fun r => r.chunks_completed)) = some 0 ∧
    ((GarminSyncWorker.processJob failFirstFetch (fun _ => false) (fun _ => false)
      twoChunkJob none).2.2[3]?.map (fun r => r.chunks_completed)) = some 1 := by
  refine ⟨?_, ?_, ?_, ?_⟩ <;> decide

/-- C3 (evidence of the code bug): on a two-chunk run where both chunks
succeed, the stored `last_successful_date` becomes day 6 after the first
chunk completes (trace entry 2) and is then reset to the stale run-start
snapshot value `none` by the in-flight write of the second chunk (trace entry
3) — the watermark regresses mid-run. -/
theorem lsd_regresses_at_inflight :
    ((GarminSyncWorker.processJob (fun _ => Except.ok ()) (fun _ => false) (fun _ => false)
      twoChunkJob none).2.2.map (fun r => r.last_successful_date)) =
      [none, none, some 6, none, some 13, some 13] ∧
    ((GarminSyncWorker.processJob (fun _ => Except.ok ()) (fun _ => false) (fun _ => false)
      twoChunkJob none).2.2[2]?.map (fun r => r.last_successful_date)) = some (some 6) ∧
    ((GarminSyncWorker.processJob (fun _ => Except.ok ()) (fun _ => false) (fun _ => false)
      twoChunkJob none).2.2[3]?.map (fun r => r.last_successful_date)) = some none := by
  refine ⟨?_, ?_, ?_⟩ <;> decide

/-- C5: when the owner already has a job in status `pending` or `running`,
both start operations return `already_running` and leave the stored state
unchanged (no job record is created).  For the historical variant the
supplied dates are assumed to pass its validation, which the source runs
before the active-job check. -/
theorem start_sync_already_running_no_mutation
    (st : GarminSyncJobService.ControllerState) (today : Nat)
    (mt : Option (List String)) (s e : Nat) (skipExisting : Bool)
    (hse : s ≤ e) (het : e ≤ today)
    (h : ∃ j ∈ st.jobs, j.status = JobStatus.pending ∨ j.status = JobStatus.running) :
    (∃ jid, GarminSyncJobService.startIncrementalSync today mt st =
      (GarminSyncJobService.StartResult.alreadyRunning jid, st)) ∧
    (∃ jid, GarminSyncJobService.startHistoricalSync (some s) (some e) today mt
      skipExisting st =
      (GarminSyncJobService.StartResult.alreadyRunning jid, st)) := by
  have hsome : (GarminSyncJobService.getActiveJob st.jobs).isSome := by
    rw [GarminSyncJobService.getActiveJob, List.find?_isSome]
    obtain ⟨j, hj, hs⟩ := h
    exact ⟨j, hj, by simpa using hs⟩
  obtain ⟨j, hj⟩ := Option.isSome_iff_exists.mp hsome
  refine ⟨⟨j.id, ?_⟩, ⟨j.id, ?_⟩⟩
  · simp only [GarminSyncJobService.startIncrementalSync, hj]
  · simp only [GarminSyncJobService.startHistoricalSync]
    rw [if_neg (show ¬ e < s by omega), if_neg (show ¬ today < e by omega)]
    simp only [hj]

/-- A pending job and a state already holding it, for the C5 witness. -/
def c5pendingJob : SyncJob :=
  ⟨0, JobStatus.pending, SyncType.incremental, 0, 1, none, 1, 0,
    none, none, none, [], none, false⟩

/-- Controller state with one active (pending) job. -/
def c5busyState : GarminSyncJobService.ControllerState :=
  { jobs := [c5pendingJob], provider := some ⟨none⟩ }

/-- Witness for `start_sync_already_running_no_mutation` at a concrete state. -/
theorem start_sync_already_running_no_mutation_witness :
    ∃ jid, GarminSyncJobService.startIncrementalSync 100 none c5busyState =
      (GarminSyncJobService.StartResult.alreadyRunning jid, c5busyState) :=
  (start_sync_already_running_no_mutation c5busyState 100 none 1 2 false
    (by decide) (by decide)
    ⟨c5pendingJob, List.mem_singleton.mpr rfl, Or.inl rfl⟩).1

/-- 2026-01-03 as an ordinal day number. -/
def d20260103 : Nat := toOrdinal 2026 1 3

/-- 2026-01-10 as an ordinal day number. -/
def d20260110 : Nat := toOrdinal 2026 1 10

/-- Controller state of an owner who is connected but has never synced. -/
def c9state : GarminSyncJobService.ControllerState :=
  { jobs := [], provider := some ⟨none⟩ }

/-- The job record `start-incremental` creates in that state on 2026-01-10. -/
def c9job : SyncJob :=
  (GarminSyncJobService.createJob [] d20260103 d20260110 SyncType.incremental
    none 2 false).1

/-- C9 counterexample: for an owner with no watermark calling
start-incremental on 2026-01-10, the created job spans
2026-01-03..2026-01-10 — an eight-day range — so `chunks_total` is 2 at
chunk size 7, not 1 as the claim states. -/
theorem incremental_scenario_two_chunks_not_one :
    (GarminSyncJobService.startIncrementalSync d20260110 none c9state).1 =
      GarminSyncJobService.StartResult.started 0 2 d20260103 d20260110 ∧
    ((GarminSyncJobService.startIncrementalSync d20260110 none c9state).2.jobs.map
      (fun j => j.chunks_total)) = [2] ∧
    ¬ (GarminSyncJobService.startIncrementalSync d20260110 none c9state).1 =
      GarminSyncJobService.StartResult.started 0 1 d20260103 d20260110 := by
  refine ⟨?_, ?_, ?_⟩ <;> decide

/-- C9 (amended): the scenario with the corrected chunk count — the job is
created over 2026-01-03..2026-01-10 with 2 chunks, and after an all-success
worker run its status is `completed` and the owner watermark is
2026-01-10. -/
theorem incremental_scenario_end_to_end :
    (GarminSyncJobService.startIncrementalSync d20260110 none c9state).1 =
      GarminSyncJobService.StartResult.started 0 2 d20260103 d20260110 ∧
    (GarminSyncJobService.startIncrementalSync d20260110 none c9state).2.jobs = [c9job] ∧
    c9job.start_date = d20260103 ∧
    c9job.end_date = d20260110 ∧
    c9job.chunks_total = 2 ∧
    c9job.status = JobStatus.pending ∧
    (GarminSyncWorker.processJob (fun _ => Except.ok ()) (fun _ => false)
      (fun _ => false) c9job none).1.status = JobStatus.completed ∧
    (GarminSyncWorker.processJob (fun _ => Except.ok ()) (fun _ => false)
      (fun _ => false) c9job none).2.1 = some d20260110 := by
  refine ⟨?_, ?_, ?_, ?_, ?_, ?_, ?_, ?_⟩ <;> decide
